import Mathlib

/-!
Verification of the session subsystem of the my_rust_cms repository.

The development shallowly embeds the two core source files

  src/backend/src/services/session_signing.rs  (SessionSigner)
  src/backend/src/services/session_manager.rs  (SessionManager)

together with the persistence port they use.  Rust strings are embedded as
lists of characters, bytes as natural numbers below 256, timestamps as
integers counted in minutes, and the database of sessions as an explicit
store value threaded through every operation.  The session-model functions
that the manager calls but whose definitions are not part of the sources
(the diesel-backed Session and User model methods) are modelled from the
specification of the persistence port; each such definition carries a doc
comment saying so.
-/

namespace SessionCore

/-! ## 32-bit word arithmetic for SHA-256 -/

/-- Truncate a natural number to a 32-bit word. -/
def w32 (n : Nat) : Nat := n % 4294967296

/-- Rotate a 32-bit word right by n bits. -/
def rotr32 (n x : Nat) : Nat := ((x >>> n) ||| (x <<< (32 - n))) % 4294967296

/-- Bitwise complement of a 32-bit word (valid for x below 2 to the 32). -/
def bnot32 (x : Nat) : Nat := 4294967295 - x

/-- SHA-256 choice function. -/
def shaCh (x y z : Nat) : Nat := (x &&& y) ^^^ (bnot32 x &&& z)

/-- SHA-256 majority function. -/
def shaMaj (x y z : Nat) : Nat := (x &&& y) ^^^ (x &&& z) ^^^ (y &&& z)

/-- SHA-256 big sigma 0. -/
def bigSigma0 (x : Nat) : Nat := rotr32 2 x ^^^ rotr32 13 x ^^^ rotr32 22 x

/-- SHA-256 big sigma 1. -/
def bigSigma1 (x : Nat) : Nat := rotr32 6 x ^^^ rotr32 11 x ^^^ rotr32 25 x

/-- SHA-256 small sigma 0. -/
def smallSigma0 (x : Nat) : Nat := rotr32 7 x ^^^ rotr32 18 x ^^^ (x >>> 3)

/-- SHA-256 small sigma 1. -/
def smallSigma1 (x : Nat) : Nat := rotr32 17 x ^^^ rotr32 19 x ^^^ (x >>> 10)

/-- Bisection step for the integer cube root. -/
def icbrtGo : Nat → Nat → Nat → Nat → Nat
  | 0, _, lo, _ => lo
  | fuel + 1, n, lo, hi =>
    if hi ≤ lo + 1 then lo
    else
      let mid := (lo + hi) / 2
      if mid * mid * mid ≤ n then icbrtGo fuel n mid hi else icbrtGo fuel n lo mid

/-- The integer cube root, by bisection (the fuel covers every input below
2 to the 130). -/
def icbrt (n : Nat) : Nat := icbrtGo 130 n 0 (n + 1)

/-- Bisection step for the integer square root. -/
def isqrtGo : Nat → Nat → Nat → Nat → Nat
  | 0, _, lo, _ => lo
  | fuel + 1, n, lo, hi =>
    if hi ≤ lo + 1 then lo
    else
      let mid := (lo + hi) / 2
      if mid * mid ≤ n then isqrtGo fuel n mid hi else isqrtGo fuel n lo mid

/-- The integer square root, by bisection (the fuel covers every input below
2 to the 130). -/
def isqrt (n : Nat) : Nat := isqrtGo 130 n 0 (n + 1)

/-- The first 64 primes, whose roots seed the SHA-256 constants. -/
def primes64 : List Nat :=
  (List.range 312).filter (fun n => 2 ≤ n && ((List.range n).filter
    (fun d => 2 ≤ d && n % d == 0)).isEmpty)

/-- The first 32 fractional bits of the square root of a number, as FIPS
180-4 defines the initial hash values over the first eight primes. -/
def fracSqrtWord (p : Nat) : Nat := isqrt (p <<< 64) - (isqrt p <<< 32)

/-- The first 32 fractional bits of the cube root of a number, as FIPS
180-4 defines the round constants over the first 64 primes. -/
def fracCbrtWord (p : Nat) : Nat := icbrt (p <<< 96) - (icbrt p <<< 32)

/-- The 64 SHA-256 round constants: the fractional cube-root bits of the
first 64 primes. -/
def sha256K : List Nat := primes64.map fracCbrtWord

/-- The eight SHA-256 working variables. -/
structure Sha256State where
  v0 : Nat
  v1 : Nat
  v2 : Nat
  v3 : Nat
  v4 : Nat
  v5 : Nat
  v6 : Nat
  v7 : Nat
deriving DecidableEq, Repr

/-- The SHA-256 initial hash value: the fractional square-root bits of the
first eight primes. -/
def sha256H0 : Sha256State :=
  ⟨fracSqrtWord 2, fracSqrtWord 3, fracSqrtWord 5, fracSqrtWord 7,
   fracSqrtWord 11, fracSqrtWord 13, fracSqrtWord 17, fracSqrtWord 19⟩

/-- One SHA-256 compression round for round constant k and schedule word w. -/
def sha256Round (s : Sha256State) (kw : Nat × Nat) : Sha256State :=
  let t1 := w32 (s.v7 + bigSigma1 s.v4 + shaCh s.v4 s.v5 s.v6 + kw.1 + kw.2)
  let t2 := w32 (bigSigma0 s.v0 + shaMaj s.v0 s.v1 s.v2)
  ⟨w32 (t1 + t2), s.v0, s.v1, s.v2, w32 (s.v3 + t1), s.v4, s.v5, s.v6⟩

/-- Extend the message schedule: acc holds the words produced so far in
reverse order, n more words are appended. -/
def sha256ExtendAux : Nat → List Nat → List Nat
  | 0, acc => acc
  | n + 1, acc =>
    let wm2 := acc.getD 1 0
    let wm7 := acc.getD 6 0
    let wm15 := acc.getD 14 0
    let wm16 := acc.getD 15 0
    sha256ExtendAux n (w32 (smallSigma1 wm2 + wm7 + smallSigma0 wm15 + wm16) :: acc)

/-- The 64-word message schedule of a 16-word block. -/
def sha256Schedule (block : List Nat) : List Nat :=
  (sha256ExtendAux 48 block.reverse).reverse

/-- Compress one 16-word block into the state. -/
def sha256Compress (s : Sha256State) (block : List Nat) : Sha256State :=
  let ws := sha256Schedule block
  let f := (sha256K.zip ws).foldl sha256Round s
  ⟨w32 (s.v0 + f.v0), w32 (s.v1 + f.v1), w32 (s.v2 + f.v2), w32 (s.v3 + f.v3),
   w32 (s.v4 + f.v4), w32 (s.v5 + f.v5), w32 (s.v6 + f.v6), w32 (s.v7 + f.v7)⟩

/-- Big-endian 4-byte serialization of a 32-bit word. -/
def beWordBytes (x : Nat) : List Nat :=
  [x >>> 24 % 256, x >>> 16 % 256, x >>> 8 % 256, x % 256]

/-- Serialize the final state to the 32 digest bytes. -/
def sha256Digest (s : Sha256State) : List Nat :=
  beWordBytes s.v0 ++ beWordBytes s.v1 ++ beWordBytes s.v2 ++ beWordBytes s.v3 ++
  beWordBytes s.v4 ++ beWordBytes s.v5 ++ beWordBytes s.v6 ++ beWordBytes s.v7

/-- Big-endian 8-byte serialization of the bit length. -/
def beBytes8 (n : Nat) : List Nat :=
  [n >>> 56 % 256, n >>> 48 % 256, n >>> 40 % 256, n >>> 32 % 256,
   n >>> 24 % 256, n >>> 16 % 256, n >>> 8 % 256, n % 256]

/-- Group bytes into big-endian 32-bit words (the input length is a
multiple of 4 at every use). -/
def bytesToWords : List Nat → List Nat
  | b0 :: b1 :: b2 :: b3 :: rest =>
    (b0 * 16777216 + b1 * 65536 + b2 * 256 + b3) :: bytesToWords rest
  | _ => []

/-- Cut a word list into 16-word blocks, n blocks in total. -/
def wordBlocks : Nat → List Nat → List (List Nat)
  | 0, _ => []
  | n + 1, ws => ws.take 16 :: wordBlocks n (ws.drop 16)

/-- SHA-256 padding of a message of length len: one 0x80 byte, zeros up to
56 mod 64, then the bit length in 8 big-endian bytes. -/
def sha256Pad (msg : List Nat) : List Nat :=
  msg ++ 128 :: List.replicate ((119 - msg.length % 64) % 64) 0 ++ beBytes8 (8 * msg.length)

/-- SHA-256 of a byte list, producing the 32 digest bytes. -/
def sha256 (msg : List Nat) : List Nat :=
  let ws := bytesToWords (sha256Pad msg)
  sha256Digest ((wordBlocks (ws.length / 16) ws).foldl sha256Compress sha256H0)

/-- HMAC-SHA256 of a message under a key, per RFC 2104 with a 64-byte block:
keys longer than the block are hashed first, then padded with zeros; the
digest is sha256 of the outer-padded key followed by sha256 of the
inner-padded key followed by the message. -/
def hmacSha256 (key msg : List Nat) : List Nat :=
  let k0 := if 64 < key.length then sha256 key else key
  let kp := k0 ++ List.replicate (64 - k0.length) 0
  sha256 ((kp.map (fun b => b ^^^ 92)) ++ sha256 ((kp.map (fun b => b ^^^ 54)) ++ msg))

set_option maxRecDepth 4000 in
/-- The prime sieve indeed yields the 64 primes FIPS 180-4 takes the cube
roots of. -/
example : primes64.length = 64 ∧ primes64.headD 0 = 2 ∧ primes64.getLastD 0 = 311 := by
  decide

set_option maxRecDepth 4000 in
/-- The derived constants agree with the published FIPS 180-4 values on a
spot check. -/
example : sha256K.take 4 = [0x428a2f98, 0x71374491, 0xb5c0fbcf, 0xe9b5dba5]
    ∧ sha256K.getLastD 0 = 0xc67178f2
    ∧ sha256H0.v0 = 0x6a09e667 ∧ sha256H0.v7 = 0x5be0cd19 := by
  decide

/-- The SHA-256 digest always has 32 bytes. -/
theorem sha256_length (msg : List Nat) : (sha256 msg).length = 32 := by
  simp [sha256, sha256Digest, beWordBytes]

/-- The SHA-256 digest is never the empty byte list. -/
theorem sha256_ne_nil (msg : List Nat) : sha256 msg ≠ [] := by
  intro h
  have := sha256_length msg
  rw [h] at this
  simp at this

/-- The HMAC-SHA256 digest always has 32 bytes. -/
theorem hmacSha256_length (key msg : List Nat) : (hmacSha256 key msg).length = 32 := by
  simp [hmacSha256, sha256_length]

/-! ## UTF-8: the byte view of a Rust string

A Rust String or str is a UTF-8 byte sequence; as_bytes exposes exactly the
UTF-8 encoding of its characters.  Strings are embedded as lists of
characters, and utf8Bytes is the embedding of as_bytes. -/

/-- UTF-8 encoding of one Unicode scalar value. -/
def utf8Nat (n : Nat) : List Nat :=
  if n < 128 then [n]
  else if n < 2048 then [192 + n / 64, 128 + n % 64]
  else if n < 65536 then [224 + n / 4096, 128 + (n / 64) % 64, 128 + n % 64]
  else [240 + n / 262144, 128 + (n / 4096) % 64, 128 + (n / 64) % 64, 128 + n % 64]

/-- UTF-8 encoding of one character. -/
def utf8Char (c : Char) : List Nat := utf8Nat c.toNat

/-- The UTF-8 bytes of a string, the embedding of str::as_bytes. -/
def utf8Bytes : List Char → List Nat
  | [] => []
  | c :: cs => utf8Char c ++ utf8Bytes cs

/-- A single scalar value never encodes to the empty byte list. -/
theorem utf8Nat_ne_nil (n : Nat) : utf8Nat n ≠ [] := by
  unfold utf8Nat
  split_ifs <;> simp

/-- UTF-8 is a prefix code: if two encoded scalars agree on a common byte
stream, the scalars and the remainders agree. -/
theorem utf8Nat_prefix_inj {n1 n2 : Nat} {l1 l2 : List Nat}
    (h : utf8Nat n1 ++ l1 = utf8Nat n2 ++ l2) : n1 = n2 ∧ l1 = l2 := by
  unfold utf8Nat at h
  split_ifs at h <;> simp_all <;> omega

/-- The byte view of a string determines the string. -/
theorem utf8Bytes_inj : ∀ {a b : List Char}, utf8Bytes a = utf8Bytes b → a = b
  | [], [], _ => rfl
  | [], c :: cs, h => by
    exact absurd h.symm (by simp [utf8Bytes, utf8Char, utf8Nat_ne_nil])
  | c :: cs, [], h => by
    exact absurd h (by simp [utf8Bytes, utf8Char, utf8Nat_ne_nil])
  | c1 :: t1, c2 :: t2, h => by
    simp only [utf8Bytes, utf8Char] at h
    obtain ⟨hc, ht⟩ := utf8Nat_prefix_inj h
    have hcc : c1 = c2 := by
      have hof := congrArg Char.ofNat hc
      rwa [Char.ofNat_toNat, Char.ofNat_toNat] at hof
    exact hcc ▸ congrArg (c1 :: ·) (utf8Bytes_inj ht)

/-! ## URL-safe unpadded base64 -/

/-- The base64url alphabet, as a function from a 6-bit index. -/
def b64Char (i : Nat) : Char :=
  if i < 26 then Char.ofNat (65 + i)
  else if i < 52 then Char.ofNat (97 + (i - 26))
  else if i < 62 then Char.ofNat (48 + (i - 52))
  else if i = 62 then Char.ofNat 45
  else Char.ofNat 95

/-- URL-safe base64 without padding: three bytes become four characters,
a final single byte two, a final pair three. -/
def b64Encode : List Nat → List Char
  | [] => []
  | [b1] => [b64Char (b1 >>> 2), b64Char (b1 % 4 <<< 4)]
  | [b1, b2] =>
    [b64Char (b1 >>> 2), b64Char (b1 % 4 <<< 4 + b2 >>> 4), b64Char (b2 % 16 <<< 2)]
  | b1 :: b2 :: b3 :: rest =>
    b64Char (b1 >>> 2) :: b64Char (b1 % 4 <<< 4 + b2 >>> 4) ::
    b64Char (b2 % 16 <<< 2 + b3 >>> 6) :: b64Char (b3 % 64) :: b64Encode rest

/-- Packing a small valid scalar value into a character and reading it back
returns the same number. -/
theorem char_toNat_ofNat {m : Nat} (hm : m < 55296) : (Char.ofNat m).toNat = m := by
  have hv : m.isValidChar := Or.inl hm
  rw [Char.ofNat, dif_pos hv]
  rfl

/-- Every character the base64url alphabet produces differs from the dot. -/
theorem b64Char_ne_dot (i : Nat) : b64Char i ≠ '.' := by
  intro hc
  have h2 := congrArg Char.toNat hc
  have hdot : Char.toNat '.' = 46 := rfl
  unfold b64Char at h2
  split_ifs at h2 <;> rw [char_toNat_ofNat (by omega)] at h2 <;> rw [hdot] at h2 <;> omega

/-- The dot character never occurs in a base64url encoding. -/
theorem b64Encode_no_dot : ∀ (l : List Nat), '.' ∉ b64Encode l
  | [] => by simp [b64Encode]
  | [b1] => by
    simp [b64Encode]
    exact ⟨(b64Char_ne_dot _).symm ∘ Eq.symm ∘ Eq.symm, fun h => (b64Char_ne_dot _) h.symm⟩
  | [b1, b2] => by
    simp [b64Encode]
    refine ⟨fun h => (b64Char_ne_dot _) h.symm, fun h => (b64Char_ne_dot _) h.symm,
      fun h => (b64Char_ne_dot _) h.symm⟩
  | b1 :: b2 :: b3 :: rest => by
    simp [b64Encode]
    refine ⟨fun h => (b64Char_ne_dot _) h.symm, fun h => (b64Char_ne_dot _) h.symm,
      fun h => (b64Char_ne_dot _) h.symm, fun h => (b64Char_ne_dot _) h.symm,
      b64Encode_no_dot rest⟩

/-- A base64url encoding of a nonempty byte list is nonempty. -/
theorem b64Encode_ne_nil : ∀ (b : Nat) (l : List Nat), b64Encode (b :: l) ≠ []
  | b, [] => by simp [b64Encode]
  | b, [b2] => by simp [b64Encode]
  | b, b2 :: b3 :: rest => by simp [b64Encode]

/-! ## Splitting a string on a separator character

The embedding of Rust slice::split(sep).collect::<Vec<_>>(): n separators
produce n plus one parts, empty parts included. -/

/-- Split a character list at every occurrence of the separator. -/
def splitChar (sep : Char) : List Char → List (List Char)
  | [] => [[]]
  | c :: cs =>
    if c = sep then [] :: splitChar sep cs
    else
      match splitChar sep cs with
      | [] => [[c]]
      | p :: ps => (c :: p) :: ps

/-- Splitting always yields at least one part. -/
theorem splitChar_ne_nil (sep : Char) : ∀ (l : List Char), splitChar sep l ≠ []
  | [] => by simp [splitChar]
  | c :: cs => by
    simp only [splitChar]
    split_ifs
    · simp
    · match h : splitChar sep cs with
      | [] => simp
      | p :: ps => simp

/-- A list free of the separator is a single part. -/
theorem splitChar_no_sep {sep : Char} : ∀ {l : List Char}, sep ∉ l → splitChar sep l = [l]
  | [], _ => rfl
  | c :: cs, h => by
    have hc : ¬ c = sep := fun he => h (he ▸ List.mem_cons_self c cs)
    have hcs : sep ∉ cs := fun hm => h (List.mem_cons_of_mem c hm)
    simp only [splitChar, if_neg hc, splitChar_no_sep hcs]

/-- Splitting a list that begins with a separator-free prefix followed by
the separator yields that prefix and then the split of the rest. -/
theorem splitChar_append_sep {sep : Char} :
    ∀ {a : List Char} (b : List Char), sep ∉ a →
      splitChar sep (a ++ sep :: b) = a :: splitChar sep b
  | [], b, _ => by simp [splitChar]
  | c :: a, b, h => by
    have hc : ¬ c = sep := fun he => h (he ▸ List.mem_cons_self c a)
    have ha : sep ∉ a := fun hm => h (List.mem_cons_of_mem c hm)
    have ih := splitChar_append_sep (a := a) b ha
    simp only [List.cons_append, splitChar, if_neg hc, List.append_eq, ih]

/-- The number of parts is the number of separators plus one. -/
theorem splitChar_length (sep : Char) :
    ∀ (l : List Char), (splitChar sep l).length = l.count sep + 1
  | [] => by simp [splitChar]
  | c :: cs => by
    simp only [splitChar]
    split_ifs with hc
    · simp [List.count_cons, hc, splitChar_length sep cs]
    · match h : splitChar sep cs with
      | [] => exact absurd h (splitChar_ne_nil sep cs)
      | p :: ps =>
        have := splitChar_length sep cs
        rw [h] at this
        simp only [List.length_cons] at this ⊢
        simp [List.count_cons, hc]
        omega

/-! ## Constant-time comparison

Embedding of the constant_time_eq helper of session_signing.rs: compares the
byte views, first by length, then by or-accumulating the xor of each pair. -/

/-- Constant-time string comparison, byte for byte. -/
def constant_time_eq (a b : List Char) : Bool :=
  if (utf8Bytes a).length ≠ (utf8Bytes b).length then false
  else decide ((((utf8Bytes a).zip (utf8Bytes b)).foldl (fun r p => r ||| (p.1 ^^^ p.2)) 0) = 0)

/-- A disjunction of bits is zero exactly when both are. -/
theorem nat_or_eq_zero {m n : Nat} : m ||| n = 0 ↔ m = 0 ∧ n = 0 := by
  constructor
  · intro h
    have hb : ∀ i, m.testBit i = false ∧ n.testBit i = false := by
      intro i
      have ht := congrArg (fun x => Nat.testBit x i) h
      simpa using ht
    exact ⟨Nat.eq_of_testBit_eq (fun i => by simp [(hb i).1]),
           Nat.eq_of_testBit_eq (fun i => by simp [(hb i).2])⟩
  · rintro ⟨rfl, rfl⟩
    rfl

/-- Every pair of a list zipped with itself is diagonal. -/
theorem zip_self_pairs : ∀ (l : List Nat) (p : Nat × Nat), p ∈ l.zip l → p.1 = p.2
  | [], p, hp => by simp at hp
  | x :: xs, p, hp => by
    rw [List.zip_cons_cons] at hp
    rcases List.mem_cons.mp hp with h | h
    · subst h
      rfl
    · exact zip_self_pairs xs p h

/-- Or-accumulating the xors of a zipped pair list starting from zero yields
zero exactly when every pair is equal, provided the accumulator starts at 0. -/
theorem fold_orxor_eq_zero :
    ∀ (l : List (Nat × Nat)) (acc : Nat),
      (l.foldl (fun r p => r ||| (p.1 ^^^ p.2)) acc = 0) ↔ (acc = 0 ∧ ∀ p ∈ l, p.1 = p.2)
  | [], acc => by simp
  | p :: l, acc => by
    rw [List.foldl_cons, fold_orxor_eq_zero l]
    constructor
    · rintro ⟨h0, hall⟩
      rw [nat_or_eq_zero] at h0
      exact ⟨h0.1, fun q hq => by
        rcases List.mem_cons.mp hq with hq | hq
        · subst hq
          exact Nat.xor_eq_zero.mp h0.2
        · exact hall q hq⟩
    · rintro ⟨h0, hall⟩
      refine ⟨?_, fun q hq => hall q (List.mem_cons_of_mem p hq)⟩
      rw [nat_or_eq_zero]
      exact ⟨h0, Nat.xor_eq_zero.mpr (hall p (List.mem_cons_self p l))⟩

/-- Two lists of equal length whose zipped pairs agree componentwise are equal. -/
theorem eq_of_zip_eq :
    ∀ {a b : List Nat}, a.length = b.length → (∀ p ∈ a.zip b, p.1 = p.2) → a = b
  | [], [], _, _ => rfl
  | [], _ :: _, h, _ => by simp at h
  | _ :: _, [], h, _ => by simp at h
  | x :: a, y :: b, h, hall => by
    have hx : x = y := hall (x, y) (by simp [List.zip_cons_cons])
    have ht : a = b := eq_of_zip_eq (by simpa using h)
      (fun p hp => hall p (by simp [List.zip_cons_cons, hp]))
    rw [hx, ht]

/-- The constant-time comparison decides string equality. -/
theorem constant_time_eq_iff (a b : List Char) : constant_time_eq a b = true ↔ a = b := by
  constructor
  · intro h
    unfold constant_time_eq at h
    split_ifs at h with hlen
    · simp only [decide_eq_true_eq] at h
      have := (fold_orxor_eq_zero _ 0).mp h
      have hb : utf8Bytes a = utf8Bytes b := eq_of_zip_eq (by omega) this.2
      exact utf8Bytes_inj hb
  · rintro rfl
    unfold constant_time_eq
    rw [if_neg (by simp)]
    simp only [decide_eq_true_eq]
    exact (fold_orxor_eq_zero _ 0).mpr ⟨rfl, zip_self_pairs (utf8Bytes a)⟩

/-! ## The session token signer

Translation of src/backend/src/services/session_signing.rs.  The signer
stores the secret as its byte view; sign_token computes HMAC-SHA256 of the
token bytes under that secret and encodes the raw MAC bytes with unpadded
URL-safe base64.  In the source sign_token returns a Result whose error
case is unreachable because HMAC-SHA256 accepts keys of every length, so it
is embedded as a total function. -/

/-- The HMAC-SHA256 token signer of session_signing.rs. -/
structure SessionSigner where
  secret : List Nat
deriving DecidableEq, Repr

namespace SessionSigner

/-- Build a signer from a secret string, storing its bytes. -/
def new (secret : List Char) : SessionSigner :=
  ⟨utf8Bytes secret⟩

/-- Sign a token with HMAC-SHA256 and base64url-encode the MAC bytes. -/
def sign_token (sg : SessionSigner) (token : List Char) : List Char :=
  b64Encode (hmacSha256 sg.secret (utf8Bytes token))

/-- Modelled from the spec: createSignedToken(identifier) returns the
identifier, a dot, and the signature of the identifier.  The manager source
calls this method as create_signed_token_from_uuid, whose definition is not
among the sources; the spec fixes its shape as identifier + "." +
sign(identifier). -/
def create_signed_token_from_uuid (sg : SessionSigner) (uuid : List Char) : List Char :=
  uuid ++ '.' :: sg.sign_token uuid

/-- Verify a signed token: split on the dot, require exactly two parts,
recompute the signature of the first part and compare in constant time
with the second; return the first part on success. -/
def verify_signed_token (sg : SessionSigner) (signed_token : List Char) : Option (List Char) :=
  match splitChar '.' signed_token with
  | [uuid_token, provided_signature] =>
    if constant_time_eq (sg.sign_token uuid_token) provided_signature
    then some uuid_token
    else none
  | _ => none

/-- A token looks signed when it contains a dot and splits into exactly two
parts. -/
def is_signed_token (token : List Char) : Bool :=
  token.contains '.' && decide ((splitChar '.' token).length = 2)

end SessionSigner

/-- A signature never contains the dot separator. -/
theorem sign_token_no_dot (sg : SessionSigner) (token : List Char) :
    '.' ∉ sg.sign_token token :=
  b64Encode_no_dot _

/-- A signature is never the empty string. -/
theorem sign_token_ne_nil (sg : SessionSigner) (token : List Char) :
    sg.sign_token token ≠ [] := by
  unfold SessionSigner.sign_token
  have h32 := hmacSha256_length sg.secret (utf8Bytes token)
  match hh : hmacSha256 sg.secret (utf8Bytes token) with
  | [] => rw [hh] at h32; simp at h32
  | b :: rest => exact b64Encode_ne_nil b rest

/-- Splitting a well-formed signed token recovers the identifier and the
signature. -/
theorem splitChar_signed (uuid sig : List Char) (hu : '.' ∉ uuid) (hs : '.' ∉ sig) :
    splitChar '.' (uuid ++ '.' :: sig) = [uuid, sig] := by
  rw [splitChar_append_sep sig hu, splitChar_no_sep hs]

/-- Round-trip: verifying a freshly created signed token recovers exactly
the identifier, for every identifier free of the dot separator. -/
theorem verify_create_roundtrip (sg : SessionSigner) (uuid : List Char) (hu : '.' ∉ uuid) :
    sg.verify_signed_token (sg.create_signed_token_from_uuid uuid) = some uuid := by
  unfold SessionSigner.verify_signed_token SessionSigner.create_signed_token_from_uuid
  rw [splitChar_signed uuid _ hu (sign_token_no_dot sg uuid)]
  show (if constant_time_eq (sg.sign_token uuid) (sg.sign_token uuid) = true
        then some uuid else none) = some uuid
  rw [if_pos ((constant_time_eq_iff _ _).mpr rfl)]

/-- A freshly created signed token looks signed whenever the identifier is
free of the dot separator. -/
theorem is_signed_create (sg : SessionSigner) (uuid : List Char) (hu : '.' ∉ uuid) :
    SessionSigner.is_signed_token (sg.create_signed_token_from_uuid uuid) = true := by
  unfold SessionSigner.is_signed_token SessionSigner.create_signed_token_from_uuid
  rw [splitChar_signed uuid _ hu (sign_token_no_dot sg uuid)]
  simp

/-! ## The error taxonomy

Translation of the error kinds of middleware::errors::AppError used by the
session manager. -/

/-- The manager error kinds. -/
inductive AppError where
  | DatabaseError (msg : String)
  | NotFound (msg : String)
  | InvalidToken
  | ExpiredToken
  | InternalError (msg : String)
deriving DecidableEq, Repr

/-! ## The session data model and persistence port

The diesel-backed models::Session and models::User methods that the manager
calls are not among the sources; they are modelled from the specification of
the persistence port (spec section 6).  Sessions are kept in creation order;
the record identifier id plays the role of the primary key, assigned from a
monotone counter, so creation-time order coincides with id order.
Timestamps are integers in minutes; a session is active at time now when its
expiry is absent or strictly later than now. -/

/-- One persisted session row: primary key, owner, token column, expiry. -/
structure Session where
  id : Nat
  user_id : Option Int
  session_token : List Char
  expires_at : Option Int
deriving DecidableEq, Repr

/-- The insertable row, as in models::NewSession. -/
structure NewSession where
  user_id : Option Int
  session_token : List Char
  expires_at : Option Int
deriving DecidableEq, Repr

/-- The session table and its primary-key counter. -/
structure Store where
  sessions : List Session
  next_id : Nat
deriving DecidableEq, Repr

/-- The empty session table. -/
def Store.empty : Store := ⟨[], 0⟩

/-- Whether a session is active (unexpired) at the given time. -/
def Session.isActive (s : Session) (now : Int) : Bool :=
  match s.expires_at with
  | none => true
  | some e => decide (now < e)

namespace Store

/-- Modelled from the spec: insertSession persists a new row under a fresh
primary key and returns it. -/
def create (st : Store) (ns : NewSession) : Session × Store :=
  let s : Session := ⟨st.next_id, ns.user_id, ns.session_token, ns.expires_at⟩
  (s, ⟨st.sessions ++ [s], st.next_id + 1⟩)

/-- Modelled from the spec: countActiveSessionsForUser counts the rows of
the user that are currently active. -/
def count_active_sessions_for_user (st : Store) (uid : Int) (now : Int) : Nat :=
  (st.sessions.filter (fun s => decide (s.user_id = some uid) && s.isActive now)).length

/-- Modelled from the spec: deleteOldestSessionsForUser deletes the oldest
rows of the user, keeping only the newest keep rows, and returns the number
of rows deleted. -/
def delete_old_sessions_for_user (st : Store) (uid : Int) (keep : Nat) : Nat × Store :=
  let userSessions := st.sessions.filter (fun s => decide (s.user_id = some uid))
  let doomed := (userSessions.take (userSessions.length - keep)).map (fun s => s.id)
  let remaining := st.sessions.filter (fun s => decide (s.id ∉ doomed))
  (st.sessions.length - remaining.length, ⟨remaining, st.next_id⟩)

/-- Modelled from the spec: findSessionByToken looks a row up by its token
column, the internal identifier. -/
def find_by_token (st : Store) (tok : List Char) : Option Session :=
  st.sessions.find? (fun s => decide (s.session_token = tok))

/-- Modelled from the spec: deleteSession removes the row with the given
primary key. -/
def delete (st : Store) (sid : Nat) : Store :=
  ⟨st.sessions.filter (fun s => decide (s.id ≠ sid)), st.next_id⟩

/-- Modelled from the spec: deleteSessionByToken removes the rows whose
token column equals the given literal string and returns how many went. -/
def delete_by_token (st : Store) (tok : List Char) : Nat × Store :=
  let remaining := st.sessions.filter (fun s => decide (s.session_token ≠ tok))
  (st.sessions.length - remaining.length, ⟨remaining, st.next_id⟩)

/-- Modelled from the spec: updateSessionExpiry sets the expiry of the row
with the given primary key and returns the updated row. -/
def refresh_expiration (st : Store) (sid : Nat) (newExp : Int) : Option (Session × Store) :=
  match st.sessions.find? (fun s => decide (s.id = sid)) with
  | none => none
  | some s =>
    some ({ s with expires_at := some newExp },
          ⟨st.sessions.map (fun t => if t.id = sid then { t with expires_at := some newExp } else t),
           st.next_id⟩)

end Store

/-! ## The session manager

Translation of src/backend/src/services/session_manager.rs.  The connection
pool is replaced by the explicit store value; the user table by the list of
existing user ids (modelled from the spec port findUserById); clock reads by
an explicit now argument; and the random UUID v4 draw inside create_session
by an explicit uuid_token argument, the freshly generated identifier.  The
debug-profile panic of the unsigned subtraction max_sessions_per_user - 1 is
made explicit: create_session returns none exactly on the underflowing path,
and some of the ordinary result otherwise. -/

/-- The session policy, as in SessionConfig. -/
structure SessionConfig where
  session_duration_hours : Int
  cleanup_interval_minutes : Nat
  max_sessions_per_user : Nat
  enable_session_refresh : Bool
  refresh_threshold_minutes : Int
  enable_token_signing : Bool
deriving DecidableEq, Repr

/-- The default policy of SessionConfig::default. -/
def SessionConfig.default : SessionConfig :=
  ⟨24, 15, 5, true, 60, true⟩

/-- The session manager: policy plus optional signer. -/
structure SessionManager where
  config : SessionConfig
  signer : Option SessionSigner
deriving DecidableEq, Repr

/-- Checked unsigned subtraction: none models the underflow panic of a
debug-profile usize subtraction. -/
def checkedSub (a b : Nat) : Option Nat :=
  if b ≤ a then some (a - b) else none

namespace SessionManager

/-- SessionManager::new, without a signer. -/
def new (config : SessionConfig) : SessionManager :=
  ⟨config, none⟩

/-- SessionManager::new_with_signing: a signer is present exactly when the
policy enables token signing. -/
def new_with_signing (config : SessionConfig) (session_secret : List Char) : SessionManager :=
  ⟨config, if config.enable_token_signing then some (SessionSigner.new session_secret) else none⟩

/-- SessionManager::create_session.  users lists the existing user ids,
now is the clock reading, uuid_token the freshly drawn identifier.  The
result is none exactly when the eviction step underflows (the panic),
otherwise some of the manager result paired with the updated store. -/
def create_session (m : SessionManager) (users : List Int) (st : Store) (now : Int)
    (uuid_token : List Char) (user_id : Int) : Option (Except AppError Session × Store) :=
  if users.contains user_id then
    match (if m.config.max_sessions_per_user ≤ st.count_active_sessions_for_user user_id now
           then (checkedSub m.config.max_sessions_per_user 1).map
                  (fun keep => (st.delete_old_sessions_for_user user_id keep).2)
           else some st) with
    | none => none
    | some st1 =>
      let expires_at := now + 60 * m.config.session_duration_hours
      let created := st1.create ⟨some user_id, uuid_token, some expires_at⟩
      match m.signer with
      | some signer =>
        some (Except.ok { created.1 with
                          session_token := signer.create_signed_token_from_uuid uuid_token },
              created.2)
      | none => some (Except.ok created.1, created.2)
  else
    some (Except.error (AppError.NotFound "User not found"), st)

/-- The token-resolution step at the top of validate_session: with a signer
present, a token that looks signed must verify, and a verification failure
is an invalid token; a token that does not look signed is used as a legacy
unsigned identifier; without a signer the token is used as given. -/
def resolve_token (m : SessionManager) (token : List Char) : Option (List Char) :=
  match m.signer with
  | some signer =>
    if SessionSigner.is_signed_token token
    then signer.verify_signed_token token
    else some token
  | none => some token

/-- SessionManager::validate_session: resolve the lookup token, find the
row, purge and fail on expiry, refresh when enabled and close to expiry,
otherwise return the session unchanged.  The store is returned alongside
the result on every path. -/
def validate_session (m : SessionManager) (st : Store) (now : Int) (token : List Char) :
    Except AppError Session × Store :=
  match m.resolve_token token with
  | none => (Except.error AppError.InvalidToken, st)
  | some lookup_token =>
    match st.find_by_token lookup_token with
    | none => (Except.error AppError.InvalidToken, st)
    | some session =>
      match session.expires_at with
      | some expires_at =>
        if expires_at ≤ now then
          (Except.error AppError.ExpiredToken, st.delete session.id)
        else if m.config.enable_session_refresh ∧
                expires_at - now < m.config.refresh_threshold_minutes then
          match st.refresh_expiration session.id
                  (now + 60 * m.config.session_duration_hours) with
          | some r => (Except.ok r.1, r.2)
          | none => (Except.error (AppError.DatabaseError "missing row"), st)
        else
          (Except.ok session, st)
      | none => (Except.ok session, st)

/-- SessionManager::logout_session: delete by the literal token string as
passed by the caller, failing with NotFound when nothing was deleted. -/
def logout_session (m : SessionManager) (st : Store) (token : List Char) :
    Except AppError Unit × Store :=
  let r := st.delete_by_token token
  if r.1 = 0 then (Except.error (AppError.NotFound "Session not found"), r.2)
  else (Except.ok (), r.2)

/-- Sequential create_session calls, one per listed fresh identifier,
threading the store; none as soon as one call panics. -/
def create_many (m : SessionManager) (users : List Int) (uid : Int) (now : Int) :
    List (List Char) → Store → Option Store
  | [], st => some st
  | t :: ts, st =>
    match m.create_session users st now t uid with
    | none => none
    | some r => create_many m users uid now ts r.2

end SessionManager

/-! ## Canonical stores

For the sliding-window cap argument: a canonical store holds exactly the
sessions of one user, with consecutive ids b, b+1, ..., b+k-1 in creation
order, a common expiry, and the counter at b+k.  Sequential create_session
calls keep a store canonical. -/

/-- The ids b, b+1, ..., b+k-1 in order. -/
def idRange (b : Nat) : Nat → List Nat
  | 0 => []
  | k + 1 => b :: idRange (b + 1) k

/-- The canonical session rows of one user. -/
def canonSessions (uid : Int) (e : Int) (f : Nat → List Char) (b k : Nat) : List Session :=
  (idRange b k).map (fun i => ⟨i, some uid, f i, some e⟩)

/-- The canonical store of one user. -/
def canonStore (uid : Int) (e : Int) (f : Nat → List Char) (b k : Nat) : Store :=
  ⟨canonSessions uid e f b k, b + k⟩

theorem idRange_length (b : Nat) : ∀ (k : Nat), (idRange b k).length = k
  | 0 => rfl
  | k + 1 => by simp [idRange, idRange_length (b + 1) k]

theorem idRange_mem : ∀ {k b i : Nat}, i ∈ idRange b k → b ≤ i ∧ i < b + k
  | 0, b, i, h => by simp [idRange] at h
  | k + 1, b, i, h => by
    rcases List.mem_cons.mp h with h | h
    · omega
    · have := idRange_mem h
      omega

theorem idRange_append_last (b : Nat) :
    ∀ (k : Nat), idRange b (k + 1) = idRange b k ++ [b + k]
  | 0 => by simp [idRange]
  | k + 1 => by
    rw [idRange, idRange_append_last (b + 1) k, idRange]
    simp
    omega

theorem mem_idRange_last (b : Nat) : ∀ (k : Nat), b + k ∈ idRange b (k + 1)
  | 0 => by simp [idRange]
  | k + 1 => by
    rw [idRange]
    refine List.mem_cons_of_mem _ ?_
    have := mem_idRange_last (b + 1) k
    have heq : b + 1 + k = b + (k + 1) := by omega
    rwa [heq] at this

theorem canonSessions_length (uid : Int) (e : Int) (f : Nat → List Char) (b k : Nat) :
    (canonSessions uid e f b k).length = k := by
  simp [canonSessions, idRange_length]

theorem canonSessions_cons (uid : Int) (e : Int) (f : Nat → List Char) (b k : Nat) :
    canonSessions uid e f b (k + 1) =
      ⟨b, some uid, f b, some e⟩ :: canonSessions uid e f (b + 1) k := rfl

theorem canonSessions_congr (uid : Int) (e : Int) (f g : Nat → List Char) (b : Nat) :
    ∀ (k : Nat), (∀ i, b ≤ i → i < b + k → f i = g i) →
      canonSessions uid e f b k = canonSessions uid e g b k := by
  intro k h
  unfold canonSessions
  refine List.map_congr_left ?_
  intro i hi
  have := idRange_mem hi
  rw [h i this.1 this.2]

theorem canonSessions_append_last (uid : Int) (e : Int) (f : Nat → List Char) (b k : Nat) :
    canonSessions uid e f b (k + 1) =
      canonSessions uid e f b k ++ [⟨b + k, some uid, f (b + k), some e⟩] := by
  unfold canonSessions
  rw [idRange_append_last, List.map_append]
  rfl

/-- Appending the freshly created row to a canonical store gives the
canonical store of the updated token assignment. -/
theorem canonStore_append (uid : Int) (e : Int) (f : Nat → List Char) (b k : Nat)
    (t : List Char) :
    (⟨canonSessions uid e f b k ++ [⟨b + k, some uid, t, some e⟩], b + k + 1⟩ : Store) =
      canonStore uid e (fun i => if i = b + k then t else f i) b (k + 1) := by
  unfold canonStore
  rw [canonSessions_append_last]
  rw [canonSessions_congr uid e (fun i => if i = b + k then t else f i) f b k
    (fun i _ h2 => by simp [Nat.ne_of_lt h2])]
  simp
  omega

/-- Every canonical row is active while the common expiry is in the future,
so the active count of a canonical store is its population. -/
theorem canon_count_active (uid : Int) (e : Int) (f : Nat → List Char) (b k : Nat)
    (now : Int) (hact : now < e) :
    (canonStore uid e f b k).count_active_sessions_for_user uid now = k := by
  unfold Store.count_active_sessions_for_user canonStore
  rw [List.filter_eq_self.mpr, canonSessions_length]
  intro s hs
  obtain ⟨i, hi, rfl⟩ := List.mem_map.mp hs
  simp [Session.isActive, hact]

theorem canonSessions_filter_user (uid : Int) (e : Int) (f : Nat → List Char) (b k : Nat) :
    (canonSessions uid e f b k).filter (fun s => decide (s.user_id = some uid)) =
      canonSessions uid e f b k := by
  rw [List.filter_eq_self.mpr]
  intro s hs
  obtain ⟨i, hi, rfl⟩ := List.mem_map.mp hs
  simp

theorem canonSessions_filter_ne_first (uid : Int) (e : Int) (f : Nat → List Char) (d : Nat) :
    ∀ (k b : Nat), d < b →
      (canonSessions uid e f b k).filter (fun s => decide (s.id ∉ [d])) =
        canonSessions uid e f b k
  | 0, b, _ => rfl
  | k + 1, b, hd => by
    rw [canonSessions_cons, List.filter_cons]
    rw [canonSessions_filter_ne_first uid e f d k (b + 1) (by omega)]
    simp [Nat.ne_of_gt hd]

/-- Evicting down to keep the newest k of k+1 canonical rows deletes exactly
the oldest row. -/
theorem canon_delete_old (uid : Int) (e : Int) (f : Nat → List Char) (b k : Nat) :
    ((canonStore uid e f b (k + 1)).delete_old_sessions_for_user uid k).2 =
      ⟨canonSessions uid e f (b + 1) k, b + (k + 1)⟩ := by
  have hfu := canonSessions_filter_user uid e f b (k + 1)
  simp only [Store.delete_old_sessions_for_user, canonStore, hfu, canonSessions_length]
  have htake : k + 1 - k = 1 := by omega
  rw [htake, canonSessions_cons, List.take_succ_cons, List.take_zero]
  rw [List.filter_cons]
  simp only [List.map_cons, List.map_nil]
  rw [canonSessions_filter_ne_first uid e f b k (b + 1) (by omega)]
  simp

/-- The create_session success path: when the user exists and the eviction
step produced st1 without panicking, the call returns the fresh row
appended to st1. -/
theorem create_session_success (m : SessionManager) (users : List Int) (st st1 : Store)
    (now : Int) (t : List Char) (uid : Int)
    (hu : users.contains uid = true)
    (hno : (if m.config.max_sessions_per_user ≤ st.count_active_sessions_for_user uid now
            then (checkedSub m.config.max_sessions_per_user 1).map
                   (fun keep => (st.delete_old_sessions_for_user uid keep).2)
            else some st) = some st1) :
    ∃ sess, m.create_session users st now t uid =
      some (Except.ok sess,
        ⟨st1.sessions ++ [⟨st1.next_id, some uid, t,
          some (now + 60 * m.config.session_duration_hours)⟩], st1.next_id + 1⟩) := by
  rw [SessionManager.create_session, if_pos hu, hno]
  cases m.signer <;> exact ⟨_, rfl⟩

/-- One create_session call on a canonical store below the cap appends the
fresh row. -/
theorem create_step_lt (m : SessionManager) (users : List Int) (uid : Int) (now e : Int)
    (t : List Char) (f : Nat → List Char) (b k : Nat)
    (hu : users.contains uid = true)
    (he : e = now + 60 * m.config.session_duration_hours)
    (hact : now < e)
    (hk : k < m.config.max_sessions_per_user) :
    ∃ sess, m.create_session users (canonStore uid e f b k) now t uid =
      some (Except.ok sess,
        canonStore uid e (fun i => if i = b + k then t else f i) b (k + 1)) := by
  have hno : (if m.config.max_sessions_per_user ≤
        (canonStore uid e f b k).count_active_sessions_for_user uid now
      then (checkedSub m.config.max_sessions_per_user 1).map
             (fun keep => ((canonStore uid e f b k).delete_old_sessions_for_user uid keep).2)
      else some (canonStore uid e f b k)) = some (canonStore uid e f b k) := by
    rw [canon_count_active uid e f b k now hact, if_neg (Nat.not_le.mpr hk)]
  obtain ⟨sess, hs⟩ := create_session_success m users _ _ now t uid hu hno
  refine ⟨sess, ?_⟩
  rw [hs, ← he]
  have : (canonStore uid e f b k).sessions = canonSessions uid e f b k := rfl
  rw [this]
  have hnext : (canonStore uid e f b k).next_id = b + k := rfl
  rw [hnext, canonStore_append]

/-- One create_session call on a canonical store at the cap evicts the
oldest row and appends the fresh one. -/
theorem create_step_eq (m : SessionManager) (users : List Int) (uid : Int) (now e : Int)
    (t : List Char) (f : Nat → List Char) (b : Nat)
    (hu : users.contains uid = true)
    (he : e = now + 60 * m.config.session_duration_hours)
    (hact : now < e)
    (hmax : 1 ≤ m.config.max_sessions_per_user) :
    ∃ sess, m.create_session users
        (canonStore uid e f b m.config.max_sessions_per_user) now t uid =
      some (Except.ok sess,
        canonStore uid e (fun i => if i = b + m.config.max_sessions_per_user then t else f i)
          (b + 1) m.config.max_sessions_per_user) := by
  obtain ⟨mx, hmx⟩ : ∃ mx, m.config.max_sessions_per_user = mx + 1 :=
    ⟨m.config.max_sessions_per_user - 1, by omega⟩
  have hsub : checkedSub m.config.max_sessions_per_user 1 = some mx := by
    rw [checkedSub, if_pos hmax, hmx]
    simp
  have hno : (if m.config.max_sessions_per_user ≤
        (canonStore uid e f b m.config.max_sessions_per_user).count_active_sessions_for_user
          uid now
      then (checkedSub m.config.max_sessions_per_user 1).map
             (fun keep =>
               ((canonStore uid e f b
                   m.config.max_sessions_per_user).delete_old_sessions_for_user uid keep).2)
      else some (canonStore uid e f b m.config.max_sessions_per_user)) =
      some (⟨canonSessions uid e f (b + 1) mx, b + (mx + 1)⟩ : Store) := by
    rw [canon_count_active uid e f b _ now hact, if_pos (Nat.le_refl _), hsub,
      Option.map_some']
    rw [hmx, canon_delete_old]
  obtain ⟨sess, hs⟩ := create_session_success m users _ _ now t uid hu hno
  refine ⟨sess, ?_⟩
  rw [hs, ← he]
  show some (Except.ok sess,
      (⟨canonSessions uid e f (b + 1) mx ++ [⟨b + (mx + 1), some uid, t, some e⟩],
        b + (mx + 1) + 1⟩ : Store)) = _
  have h1 : b + (mx + 1) = (b + 1) + mx := by omega
  rw [h1, canonStore_append, hmx]
  have h2 : b + 1 + mx = b + (mx + 1) := by omega
  rw [h2]

/-- Unfolding one sequential call. -/
theorem create_many_cons (m : SessionManager) (users : List Int) (uid : Int) (now : Int)
    (t : List Char) (ts : List (List Char)) (st : Store) (res : Except AppError Session)
    (st2 : Store) (h : m.create_session users st now t uid = some (res, st2)) :
    m.create_many users uid now (t :: ts) st = m.create_many users uid now ts st2 := by
  simp only [SessionManager.create_many, h]

/-- Two canonical stores with equal bounds are equal. -/
theorem canonStore_eq_of (uid : Int) (e : Int) (f : Nat → List Char) (b1 b2 k1 k2 : Nat)
    (hb : b1 = b2) (hk : k1 = k2) :
    canonStore uid e f b1 k1 = canonStore uid e f b2 k2 := by
  rw [hb, hk]

/-- Sequential create_session calls keep a store canonical: starting from k
rows with ids b..b+k-1 under the cap, n calls leave min (k + n) cap rows
holding the newest ids. -/
theorem create_many_canon (m : SessionManager) (users : List Int) (uid : Int) (now e : Int)
    (hu : users.contains uid = true)
    (he : e = now + 60 * m.config.session_duration_hours)
    (hact : now < e)
    (hmax : 1 ≤ m.config.max_sessions_per_user) :
    ∀ (tokens : List (List Char)) (f : Nat → List Char) (b k : Nat),
      k ≤ m.config.max_sessions_per_user →
      ∃ f2, m.create_many users uid now tokens (canonStore uid e f b k) =
        some (canonStore uid e f2
          (b + k + tokens.length -
            min (k + tokens.length) m.config.max_sessions_per_user)
          (min (k + tokens.length) m.config.max_sessions_per_user))
  | [], f, b, k, hk => by
    refine ⟨f, ?_⟩
    simp only [SessionManager.create_many]
    exact congrArg some (canonStore_eq_of uid e f _ _ _ _
      (by simp only [List.length_nil]; omega) (by simp only [List.length_nil]; omega)).symm
  | t :: ts, f, b, k, hk => by
    rcases Nat.lt_or_ge k m.config.max_sessions_per_user with hlt | hge
    · obtain ⟨sess, hs⟩ := create_step_lt m users uid now e t f b k hu he hact hlt
      obtain ⟨f2, hrec⟩ := create_many_canon m users uid now e hu he hact hmax ts
        (fun i => if i = b + k then t else f i) b (k + 1) (by omega)
      refine ⟨f2, ?_⟩
      rw [create_many_cons m users uid now t ts _ _ _ hs, hrec]
      exact congrArg some (canonStore_eq_of uid e f2 _ _ _ _
        (by simp only [List.length_cons]; omega) (by simp only [List.length_cons]; omega))
    · have hkk : k = m.config.max_sessions_per_user := by omega
      subst hkk
      obtain ⟨sess, hs⟩ := create_step_eq m users uid now e t f b hu he hact hmax
      obtain ⟨f2, hrec⟩ := create_many_canon m users uid now e hu he hact hmax ts
        (fun i => if i = b + m.config.max_sessions_per_user then t else f i) (b + 1)
        m.config.max_sessions_per_user (Nat.le_refl _)
      refine ⟨f2, ?_⟩
      rw [create_many_cons m users uid now t ts _ _ _ hs, hrec]
      exact congrArg some (canonStore_eq_of uid e f2 _ _ _ _
        (by simp only [List.length_cons]; omega) (by simp only [List.length_cons]; omega))

/-- The row ids of a canonical store, in creation order. -/
theorem canonSessions_ids (uid : Int) (e : Int) (f : Nat → List Char) :
    ∀ (k b : Nat), (canonSessions uid e f b k).map (fun s => s.id) = idRange b k
  | 0, b => rfl
  | k + 1, b => by
    rw [canonSessions_cons, List.map_cons, canonSessions_ids uid e f k (b + 1)]
    rfl

/-! ## Claim theorems -/

/-- C2, amended: for every identifier string id free of the dot separator
and every secret s, verifying the signed token built from id under s with
the same secret returns some id. -/
theorem claim_C2 (s id : List Char) (h : '.' ∉ id) :
    (SessionSigner.new s).verify_signed_token
      ((SessionSigner.new s).create_signed_token_from_uuid id) = some id :=
  verify_create_roundtrip _ id h

/-- Witness for C2 at a concrete identifier and secret. -/
theorem claim_C2_witness :
    '.' ∉ ['u'] ∧
      (SessionSigner.new ['k']).verify_signed_token
        ((SessionSigner.new ['k']).create_signed_token_from_uuid ['u']) = some ['u'] :=
  ⟨by decide, claim_C2 ['k'] ['u'] (by decide)⟩

/-- Counterexample to C2 as stated: for the identifier "a.b", which contains
a dot, verification of its signed token does not return the identifier. -/
theorem claim_C2_counterexample :
    (SessionSigner.new ['k']).verify_signed_token
      ((SessionSigner.new ['k']).create_signed_token_from_uuid ['a', '.', 'b']) ≠
      some ['a', '.', 'b'] := by
  have hsig := sign_token_no_dot (SessionSigner.new ['k']) ['a', '.', 'b']
  unfold SessionSigner.verify_signed_token SessionSigner.create_signed_token_from_uuid
  have h1 : (['a', '.', 'b'] ++ '.' :: (SessionSigner.new ['k']).sign_token ['a', '.', 'b'])
      = ['a'] ++ '.' :: (['b'] ++ '.' :: (SessionSigner.new ['k']).sign_token ['a', '.', 'b']) :=
    rfl
  rw [h1, splitChar_append_sep _ (by decide), splitChar_append_sep _ (by decide),
      splitChar_no_sep hsig]
  simp

/-- C7: for every token without exactly one dot, is_signed_token is false
and verification returns none; and for a two-part token whose second part
differs from the signature of the first, verification also returns none.
Both functions are total, so neither panics on any input. -/
theorem claim_C7 :
    (∀ (sg : SessionSigner) (t : List Char), t.count '.' ≠ 1 →
        SessionSigner.is_signed_token t = false ∧ sg.verify_signed_token t = none)
    ∧ (∀ (sg : SessionSigner) (u p : List Char), '.' ∉ u → '.' ∉ p →
        p ≠ sg.sign_token u → sg.verify_signed_token (u ++ '.' :: p) = none) := by
  constructor
  · intro sg t h
    have hlen := splitChar_length '.' t
    constructor
    · unfold SessionSigner.is_signed_token
      have : ¬ ((splitChar '.' t).length = 2) := by omega
      simp [this]
    · unfold SessionSigner.verify_signed_token
      cases hs : splitChar '.' t with
      | nil => exact absurd hs (splitChar_ne_nil '.' t)
      | cons u rest =>
        cases rest with
        | nil => rfl
        | cons p rest2 =>
          cases rest2 with
          | nil =>
            rw [hs] at hlen
            simp at hlen
            omega
          | cons q rest3 => rfl
  · intro sg u p hu hp hne
    unfold SessionSigner.verify_signed_token
    rw [splitChar_signed u p hu hp]
    show (if constant_time_eq (sg.sign_token u) p = true then some u else none) = none
    rw [if_neg]
    intro hct
    exact hne ((constant_time_eq_iff _ _).mp hct).symm

/-- Witness for C7: the dotless token "ab" is neither signed-looking nor
verifiable, and the two-part token with an empty second part fails
verification because the empty string is not the signature. -/
theorem claim_C7_witness :
    (SessionSigner.is_signed_token ['a', 'b'] = false ∧
      (SessionSigner.new ['k']).verify_signed_token ['a', 'b'] = none)
    ∧ (SessionSigner.new ['k']).verify_signed_token (['u'] ++ '.' :: []) = none :=
  ⟨claim_C7.1 (SessionSigner.new ['k']) ['a', 'b'] (by decide),
   claim_C7.2 (SessionSigner.new ['k']) ['u'] [] (by decide) (by decide)
     (fun h => sign_token_ne_nil (SessionSigner.new ['k']) ['u'] h.symm)⟩

/-- C8: creating a session for a user id the user table does not contain
fails with NotFound and leaves the store untouched. -/
theorem claim_C8 (m : SessionManager) (users : List Int) (st : Store) (now : Int)
    (u : List Char) (uid : Int) (h : users.contains uid = false) :
    m.create_session users st now u uid =
      some (Except.error (AppError.NotFound "User not found"), st) := by
  unfold SessionManager.create_session
  rw [if_neg (fun hc => by rw [h] at hc; simp at hc)]

/-- Witness for C8 at a concrete missing user. -/
theorem claim_C8_witness :
    ([(2 : Int)].contains 1 = false) ∧
      (SessionManager.new SessionConfig.default).create_session [2] Store.empty 0 ['u'] 1 =
        some (Except.error (AppError.NotFound "User not found"), Store.empty) :=
  ⟨by decide, claim_C8 _ _ _ _ _ _ (by decide)⟩

/-- C9: with at least one allowed session per user the eviction subtraction
never underflows, so create_session never panics; with a zero cap the
eviction branch runs for every count and the subtraction 0 - 1 underflows,
so create_session panics whenever the user exists. -/
theorem claim_C9 (m : SessionManager) (users : List Int) (st : Store) (now : Int)
    (u : List Char) (uid : Int) :
    (1 ≤ m.config.max_sessions_per_user → m.create_session users st now u uid ≠ none)
    ∧ (m.config.max_sessions_per_user = 0 → users.contains uid = true →
        m.create_session users st now u uid = none) := by
  constructor
  · intro h1 hcontra
    rw [SessionManager.create_session] at hcontra
    by_cases hu : users.contains uid = true
    · rw [if_pos hu, checkedSub, if_pos h1] at hcontra
      cases hsg : m.signer <;> rw [hsg] at hcontra <;>
        by_cases hcnt :
          m.config.max_sessions_per_user ≤ st.count_active_sessions_for_user uid now <;>
        simp [hcnt] at hcontra
    · rw [if_neg hu] at hcontra
      simp at hcontra
  · intro h0 hu
    rw [SessionManager.create_session, if_pos hu, h0]
    simp [checkedSub]

/-- Witness for C9: the default cap of five never panics on a concrete
call, and a zero cap panics on the same call. -/
theorem claim_C9_witness :
    ((SessionManager.new SessionConfig.default).create_session [1] Store.empty 0 ['u'] 1 ≠ none)
    ∧ ((SessionManager.new ⟨24, 15, 0, true, 60, false⟩).create_session
        [1] Store.empty 0 ['u'] 1 = none) :=
  ⟨(claim_C9 _ _ _ _ _ _).1 (by decide),
   (claim_C9 _ _ _ _ _ _).2 rfl (by decide)⟩

/-- C10: a session row with no expiry is returned unchanged by
validate_session, with the store untouched, for every clock reading and
every policy: it is never purged, never rejected as expired, and never
refreshed. -/
theorem claim_C10 (m : SessionManager) (st : Store) (now : Int) (token lt : List Char)
    (s : Session) (hres : m.resolve_token token = some lt)
    (hfind : st.find_by_token lt = some s) (hexp : s.expires_at = none) :
    m.validate_session st now token = (Except.ok s, st) := by
  simp only [SessionManager.validate_session, hres, hfind, hexp]

/-- Witness for C10 at a concrete expiry-free session. -/
theorem claim_C10_witness :
    (SessionManager.new SessionConfig.default).validate_session
        ⟨[⟨0, some 1, ['t'], none⟩], 1⟩ 99999 ['t'] =
      (Except.ok ⟨0, some 1, ['t'], none⟩, ⟨[⟨0, some 1, ['t'], none⟩], 1⟩) :=
  claim_C10 _ _ _ _ ['t'] _ rfl rfl rfl

/-- C1: when the signer is present and create_session succeeds for a fresh
identifier free of the dot separator, the session handed back carries the
signed token identifier-dot-signature, the persisted store contains a row
whose token column is the bare identifier, and verifying the returned token
yields exactly that persisted identifier. -/
theorem claim_C1 (m : SessionManager) (users : List Int) (st : Store) (now : Int)
    (uuid : List Char) (uid : Int) (sg : SessionSigner) (sess : Session) (st2 : Store)
    (hsig : m.signer = some sg) (hdot : '.' ∉ uuid)
    (hok : m.create_session users st now uuid uid = some (Except.ok sess, st2)) :
    sess.session_token = sg.create_signed_token_from_uuid uuid
    ∧ (∃ r ∈ st2.sessions, r.session_token = uuid)
    ∧ sg.verify_signed_token sess.session_token = some uuid := by
  rw [SessionManager.create_session] at hok
  by_cases hu : users.contains uid = true
  · rw [if_pos hu, hsig] at hok
    cases hif : (if m.config.max_sessions_per_user ≤ st.count_active_sessions_for_user uid now
                 then (checkedSub m.config.max_sessions_per_user 1).map
                        (fun keep => (st.delete_old_sessions_for_user uid keep).2)
                 else some st) with
    | none =>
      rw [hif] at hok
      simp at hok
    | some st1 =>
      rw [hif] at hok
      simp only [Store.create, Option.some.injEq, Prod.mk.injEq, Except.ok.injEq] at hok
      obtain ⟨hsess, hst⟩ := hok
      subst hst
      subst hsess
      refine ⟨rfl, ⟨⟨st1.next_id, some uid, uuid,
        some (now + 60 * m.config.session_duration_hours)⟩, ?_, rfl⟩, ?_⟩
      · exact List.mem_append_right _ (List.mem_singleton_self _)
      · exact verify_create_roundtrip sg uuid hdot
  · rw [if_neg hu] at hok
    simp at hok

/-- Witness for C1: a concrete signing-enabled manager, user table, and
identifier. -/
theorem claim_C1_witness :
    (⟨0, some 1, (SessionSigner.new ['k']).create_signed_token_from_uuid ['u'],
        some 1440⟩ : Session).session_token
      = (SessionSigner.new ['k']).create_signed_token_from_uuid ['u']
    ∧ (∃ r ∈ (⟨[⟨0, some 1, ['u'], some 1440⟩], 1⟩ : Store).sessions,
        r.session_token = ['u'])
    ∧ (SessionSigner.new ['k']).verify_signed_token
        (⟨0, some 1, (SessionSigner.new ['k']).create_signed_token_from_uuid ['u'],
          some 1440⟩ : Session).session_token = some ['u'] :=
  claim_C1 (SessionManager.new_with_signing SessionConfig.default ['k']) [1] Store.empty 0
    ['u'] 1 (SessionSigner.new ['k'])
    ⟨0, some 1, (SessionSigner.new ['k']).create_signed_token_from_uuid ['u'], some 1440⟩
    ⟨[⟨0, some 1, ['u'], some 1440⟩], 1⟩ rfl (by decide) rfl

/-- C5: the code, not the claim, is at fault.  With signing enabled, logging
out with the exact token returned by create_session deletes nothing: the
store still holds the bare identifier, the raw delete-by-token misses it,
and logout_session fails with NotFound while the session record survives
unchanged. -/
theorem claim_C5 :
    ∃ (sess : Session) (st2 : Store),
      (SessionManager.new_with_signing SessionConfig.default ['k']).create_session
          [1] Store.empty 0 ['u'] 1 = some (Except.ok sess, st2)
      ∧ (SessionManager.new_with_signing SessionConfig.default ['k']).logout_session st2
          sess.session_token =
        (Except.error (AppError.NotFound "Session not found"), st2) := by
  refine ⟨_, _, rfl, ?_⟩
  unfold SessionManager.logout_session Store.delete_by_token
  have hne : decide ((['u'] : List Char) =
      (SessionSigner.new ['k']).create_signed_token_from_uuid ['u']) = false := by
    rw [decide_eq_false_iff_not]
    unfold SessionSigner.create_signed_token_from_uuid
    intro hcontra
    simp at hcontra
  simp [Store.empty, Store.create, hne]

/-- C4, amended: for a cap of at least one and a session lifetime of at
least one hour, calling create_session cap-plus-one times sequentially for
an existing user, starting from an empty store, succeeds every time and
leaves exactly cap active sessions for the user; their ids are 1..cap in
creation order, so the evicted session is the oldest (id 0, the first
created) and the newest (id cap, the last created) is among the survivors. -/
theorem claim_C4 (m : SessionManager) (users : List Int) (uid : Int) (now : Int)
    (tokens : List (List Char))
    (hmax : 1 ≤ m.config.max_sessions_per_user)
    (hd : 1 ≤ m.config.session_duration_hours)
    (hu : users.contains uid = true)
    (hlen : tokens.length = m.config.max_sessions_per_user + 1) :
    ∃ stF, m.create_many users uid now tokens Store.empty = some stF
      ∧ stF.count_active_sessions_for_user uid now = m.config.max_sessions_per_user
      ∧ stF.sessions.map (fun s => s.id) = idRange 1 m.config.max_sessions_per_user
      ∧ (∀ s ∈ stF.sessions, s.user_id = some uid ∧ s.isActive now = true)
      ∧ m.config.max_sessions_per_user ∈ stF.sessions.map (fun s => s.id) := by
  have hact : now < now + 60 * m.config.session_duration_hours := by omega
  obtain ⟨f2, hres⟩ := create_many_canon m users uid now
    (now + 60 * m.config.session_duration_hours) hu rfl hact hmax tokens
    (fun _ => []) 0 0 (by omega)
  have hempty : canonStore uid (now + 60 * m.config.session_duration_hours)
      (fun _ => []) 0 0 = Store.empty := rfl
  rw [hempty] at hres
  rw [canonStore_eq_of uid (now + 60 * m.config.session_duration_hours) f2 _ 1 _
    m.config.max_sessions_per_user (by rw [hlen]; omega) (by rw [hlen]; omega)] at hres
  refine ⟨_, hres, ?_, ?_, ?_, ?_⟩
  · exact canon_count_active uid _ f2 1 _ now hact
  · exact canonSessions_ids uid _ f2 _ 1
  · intro s hs
    obtain ⟨i, hi, rfl⟩ := List.mem_map.mp hs
    exact ⟨rfl, by simp [Session.isActive, hact]⟩
  · have hids : (canonStore uid (now + 60 * m.config.session_duration_hours) f2 1
        m.config.max_sessions_per_user).sessions.map (fun s => s.id) =
        idRange 1 m.config.max_sessions_per_user := canonSessions_ids uid _ f2 _ 1
    rw [hids]
    have hm := mem_idRange_last 1 (m.config.max_sessions_per_user - 1)
    have h1 : 1 + (m.config.max_sessions_per_user - 1) = m.config.max_sessions_per_user := by
      omega
    have h2 : m.config.max_sessions_per_user - 1 + 1 = m.config.max_sessions_per_user := by
      omega
    rw [h1, h2] at hm
    exact hm

/-- Witness for C4 at cap one: two sequential logins leave exactly the
newest session. -/
theorem claim_C4_witness :
    ∃ stF, (SessionManager.new ⟨24, 15, 1, true, 60, false⟩).create_many [7] 7 0
        [['a'], ['b']] Store.empty = some stF
      ∧ stF.count_active_sessions_for_user 7 0 = 1
      ∧ stF.sessions.map (fun s => s.id) = idRange 1 1
      ∧ (∀ s ∈ stF.sessions, s.user_id = some 7 ∧ s.isActive 0 = true)
      ∧ 1 ∈ stF.sessions.map (fun s => s.id) :=
  claim_C4 (SessionManager.new ⟨24, 15, 1, true, 60, false⟩) [7] 7 0 [['a'], ['b']]
    (by decide) (by decide) (by decide) rfl

/-- Counterexample to C4 as stated over every configuration: with a cap of
zero the single login panics on the underflowing eviction subtraction
instead of succeeding, and with a zero-hour lifetime the sessions are
created already expired, so after cap-plus-one calls no active session
exists at all. -/
theorem claim_C4_counterexample :
    ((SessionManager.new ⟨24, 15, 0, true, 60, false⟩).create_many [7] 7 0
        [['a']] Store.empty = none)
    ∧ ∃ stF, (SessionManager.new ⟨0, 15, 1, true, 60, false⟩).create_many [7] 7 0
          [['a'], ['b']] Store.empty = some stF
        ∧ stF.count_active_sessions_for_user 7 0 = 0 := by
  exact ⟨rfl, ⟨_, rfl, rfl⟩⟩

/-- C3: validating a token whose resolved session row exists with an expiry
at or before now deletes the row and fails with ExpiredToken, and a second
validation of the same token fails with InvalidToken against the unchanged
purged store; the expired session is neither refreshed nor returned as
valid on either call. -/
theorem claim_C3 (m : SessionManager) (st : Store) (now : Int) (token lt : List Char)
    (s : Session) (exp : Int)
    (hres : m.resolve_token token = some lt)
    (hfind : st.find_by_token lt = some s)
    (huniq : ∀ r ∈ st.sessions, r.session_token = lt → r.id = s.id)
    (hexp : s.expires_at = some exp) (hpast : exp ≤ now) :
    m.validate_session st now token = (Except.error AppError.ExpiredToken, st.delete s.id)
    ∧ s ∉ (st.delete s.id).sessions
    ∧ m.validate_session (st.delete s.id) now token =
        (Except.error AppError.InvalidToken, st.delete s.id) := by
  refine ⟨?_, ?_, ?_⟩
  · simp only [SessionManager.validate_session, hres, hfind, hexp]
    rw [if_pos hpast]
  · intro hmem
    rw [Store.delete] at hmem
    have hpr := List.of_mem_filter hmem
    simp at hpr
  · have hnone : (st.delete s.id).find_by_token lt = none := by
      rw [Store.find_by_token, List.find?_eq_none]
      intro r hr
      rw [Store.delete] at hr
      have hid := List.of_mem_filter hr
      have hmem2 := List.mem_of_mem_filter hr
      simp only [decide_eq_true_eq] at hid ⊢
      intro htok
      exact hid (huniq r hmem2 htok)
    simp only [SessionManager.validate_session, hres, hnone]

/-- Witness for C3 at a concrete expired session. -/
theorem claim_C3_witness :
    (SessionManager.new SessionConfig.default).validate_session
        ⟨[⟨0, some 1, ['t'], some 10⟩], 1⟩ 10 ['t'] =
      (Except.error AppError.ExpiredToken, Store.delete ⟨[⟨0, some 1, ['t'], some 10⟩], 1⟩ 0)
    ∧ (⟨0, some 1, ['t'], some 10⟩ : Session) ∉
        (Store.delete ⟨[⟨0, some 1, ['t'], some 10⟩], 1⟩ 0).sessions
    ∧ (SessionManager.new SessionConfig.default).validate_session
        (Store.delete ⟨[⟨0, some 1, ['t'], some 10⟩], 1⟩ 0) 10 ['t'] =
      (Except.error AppError.InvalidToken,
        Store.delete ⟨[⟨0, some 1, ['t'], some 10⟩], 1⟩ 0) :=
  claim_C3 (SessionManager.new SessionConfig.default) ⟨[⟨0, some 1, ['t'], some 10⟩], 1⟩ 10
    ['t'] ['t'] ⟨0, some 1, ['t'], some 10⟩ 10 rfl rfl (by decide) rfl (by decide)

/-- C6, amended: for an unexpired resolved session, with refresh enabled and
remaining time strictly below the threshold, validate_session returns the
session with expiry set to now plus the session lifetime, which is strictly
later than the original expiry whenever the threshold does not exceed the
lifetime in minutes; with remaining time at or above the threshold, or with
refresh disabled, the session and the store are returned unchanged. -/
theorem claim_C6 (m : SessionManager) (st : Store) (now : Int) (token lt : List Char)
    (s : Session) (exp : Int)
    (hres : m.resolve_token token = some lt)
    (hfind : st.find_by_token lt = some s)
    (hexp : s.expires_at = some exp) (hlive : now < exp) :
    (m.config.enable_session_refresh = true →
      exp - now < m.config.refresh_threshold_minutes →
      ∃ s2 st2, m.validate_session st now token = (Except.ok s2, st2)
        ∧ s2.expires_at = some (now + 60 * m.config.session_duration_hours)
        ∧ (m.config.refresh_threshold_minutes ≤ 60 * m.config.session_duration_hours →
            exp < now + 60 * m.config.session_duration_hours))
    ∧ (m.config.enable_session_refresh = true →
        m.config.refresh_threshold_minutes ≤ exp - now →
        m.validate_session st now token = (Except.ok s, st))
    ∧ (m.config.enable_session_refresh = false →
        m.validate_session st now token = (Except.ok s, st)) := by
  have hmem := List.mem_of_find?_eq_some hfind
  refine ⟨?_, ?_, ?_⟩
  · intro hre hthr
    cases hfr : st.sessions.find? (fun u => decide (u.id = s.id)) with
    | none =>
      have := List.find?_eq_none.mp hfr s hmem
      simp at this
    | some r =>
      obtain ⟨val, hval⟩ : ∃ v, st.refresh_expiration s.id
          (now + 60 * m.config.session_duration_hours) = some v := by
        rw [Store.refresh_expiration, hfr]
        exact ⟨_, rfl⟩
      refine ⟨val.1, val.2, ?_, ?_, fun hth => by omega⟩
      · simp only [SessionManager.validate_session, hres, hfind, hexp]
        rw [if_neg (by omega), if_pos ⟨hre, hthr⟩, hval]
      · rw [Store.refresh_expiration, hfr] at hval
        simp only [Option.some.injEq] at hval
        rw [← hval]
  · intro hre hge
    simp only [SessionManager.validate_session, hres, hfind, hexp]
    rw [if_neg (by omega), if_neg (by rintro ⟨h1, h2⟩; omega)]
  · intro hre
    simp only [SessionManager.validate_session, hres, hfind, hexp]
    rw [if_neg (by omega), if_neg (by rintro ⟨h1, h2⟩; rw [hre] at h1; simp at h1)]

/-- Witness for C6 inside the refresh window under the default policy. -/
theorem claim_C6_witness :
    ∃ s2 st2,
      (SessionManager.new SessionConfig.default).validate_session
          ⟨[⟨0, some 1, ['t'], some 30⟩], 1⟩ 0 ['t'] = (Except.ok s2, st2)
      ∧ s2.expires_at = some (0 + 60 * 24)
      ∧ ((60 : Int) ≤ 60 * 24 → (30 : Int) < 0 + 60 * 24) :=
  (claim_C6 (SessionManager.new SessionConfig.default) ⟨[⟨0, some 1, ['t'], some 30⟩], 1⟩ 0
    ['t'] ['t'] ⟨0, some 1, ['t'], some 30⟩ 30 rfl rfl rfl (by decide)).1 rfl (by decide)

/-- Counterexample to C6 as stated: with a one-hour lifetime and a 600
minute threshold, a session 300 minutes from expiry is refreshed to an
expiry only 60 minutes away, which is earlier, not strictly later, than the
original expiry. -/
theorem claim_C6_counterexample :
    (SessionManager.new ⟨1, 15, 5, true, 600, false⟩).validate_session
        ⟨[⟨0, some 1, ['t'], some 300⟩], 1⟩ 0 ['t'] =
      (Except.ok ⟨0, some 1, ['t'], some 60⟩, ⟨[⟨0, some 1, ['t'], some 60⟩], 1⟩)
    ∧ ¬ ((300 : Int) < 60) := by
  exact ⟨rfl, by omega⟩

end SessionCore
